import Mathlib

/-!
Verification of the dialects repository: a shallow embedding of
`scripts/02_preprocess_audio.py` (speech-onset detection and preprocessing
with quarantine of failed files) and `scripts/03_extract_embeddings_new.py`
(the idempotent per-file embedding-extraction pipeline with failure
classification and append-only ledgers), together with theorems settling the
behavioural claims of the specification against these embeddings.

Conventions of the embedding:
- filesystem directories become explicit lists inside a state record;
- the fallible external capabilities (audio decoding, the Silero VAD
  speech-activity detector, the ECAPA feature extractor) become oracle
  functions passed as parameters: each per-file outcome is a function of the
  file alone, matching the scripts, which hold no cross-file mutable state;
- Python floats on the onset path are modelled exactly as rationals, since
  the only arithmetic performed is division and comparison of small values;
- the pipeline run additionally produces an event trace, used for the
  temporal (ordering) claims.
-/

namespace Dialects

/-! ## String helpers modelling the Python path / string operations used -/

/-- Does the first list occur as the initial run of the second?
Used to model Python substring tests. -/
def listStartsWith : List Char → List Char → Bool
  | [], _ => true
  | _ :: _, [] => false
  | a :: pa, b :: sb => a = b && listStartsWith pa sb

/-- Does `pat` occur as a contiguous run anywhere inside the list?
Models the Python `pat in s` substring test. -/
def listContainsRun (pat : List Char) : List Char → Bool
  | [] => pat.isEmpty
  | c :: t => listStartsWith pat (c :: t) || listContainsRun pat t

/-- Python `pat in s` on strings. -/
def strContains (s pat : String) : Bool :=
  listContainsRun pat.toList s.toList

/-- Strip `pat` from the front of the second list, returning the remainder
when it matches. -/
def stripRun : List Char → List Char → Option (List Char)
  | [], s => some s
  | _ :: _, [] => none
  | a :: pa, b :: sb => if a = b then stripRun pa sb else none

/-- Worker for `strReplace`: replace non-overlapping occurrences of `pat` by
`rep`, scanning left to right; the fuel (one unit per consumed character)
makes the recursion structural. -/
def replaceAllFuel (pat rep : List Char) : ℕ → List Char → List Char
  | 0, s => s
  | _ + 1, [] => []
  | fuel + 1, c :: t =>
    match pat, stripRun pat (c :: t) with
    | _ :: _, some r => rep ++ replaceAllFuel pat rep fuel r
    | _, _ => c :: replaceAllFuel pat rep fuel t

/-- Python `s.replace(pat, rep)` for a non-empty pattern. -/
def strReplace (s pat rep : String) : String :=
  (replaceAllFuel pat.toList rep.toList s.toList.length s.toList).asString

/-- Python `s.endswith(pat)`; also models the `*.wav` name glob applied to a
path. -/
def strEndsWith (s pat : String) : Bool :=
  listStartsWith pat.toList.reverse s.toList.reverse

/-- The final path component: `pathlib.Path(p).name` (POSIX flavour,
ignoring trailing slashes as pathlib does). -/
def fileName (p : String) : String :=
  ((((p.toList.reverse).dropWhile (fun c => c = '/')).takeWhile
      (fun c => c ≠ '/')).reverse).asString

/-- `pathlib.Path(p).stem`: the final component with its last extension
removed; an extension only counts when the last dot is neither the first nor
the last character of the name (CPython's rule). -/
def pathStem (p : String) : String :=
  let n := (fileName p).toList
  if n.contains '.' then
    let i := n.length - 1 - n.reverse.indexOf '.'
    if 0 < i ∧ i < n.length - 1 then (n.take i).asString else n.asString
  else n.asString

/-- Insert into a ≤-sorted list of strings, keeping it sorted. -/
def insertSorted (a : String) : List String → List String
  | [] => [a]
  | b :: t => if a ≤ b then a :: b :: t else b :: insertSorted a t

/-- Ascending sort of a list of path strings; models Python `sorted(...)`
as applied to the discovered file paths. -/
def sortStrings (l : List String) : List String :=
  l.foldr insertSorted []

theorem mem_insertSorted (x a : String) (l : List String) :
    x ∈ insertSorted a l ↔ x = a ∨ x ∈ l := by
  induction l with
  | nil => simp [insertSorted]
  | cons b t ih =>
    by_cases h : a ≤ b
    · simp [insertSorted, h]
    · simp only [insertSorted, if_neg h, List.mem_cons, ih]
      tauto

theorem mem_sortStrings (x : String) (l : List String) :
    x ∈ sortStrings l ↔ x ∈ l := by
  induction l with
  | nil => simp [sortStrings]
  | cons a t ih =>
    simp only [sortStrings, List.foldr] at *
    rw [mem_insertSorted, ih]
    simp

/-! ## Onset detector: `detect_speech_start` of `02_preprocess_audio.py`

`audiosegment_to_waveform` always returns a waveform at the target sample
rate 16000 (it resamples whenever the decoded rate differs), so the sample
rate entering the millisecond conversion is the constant 16000.  The
speech-activity capability (`get_speech_timestamps` on the sub-clip starting
at a given skip) is modelled as a function from the skip value, in
milliseconds, to the ordered list of returned segments. -/

/-- Sample rate of the normalized waveform handed to the VAD
(`audiosegment_to_waveform`, `target_sr=16000`). -/
def targetSampleRate : ℕ := 16000

/-- One speech-activity segment as returned by the VAD capability:
start and end offsets in samples, relative to the sub-clip. -/
structure SpeechSegment where
  start : ℕ
  stop : ℕ
deriving DecidableEq, Repr

/-- `segments[0]['start'] / sr * 1000`: a segment start in samples converted
to milliseconds at the normalized rate. -/
def relStartMs (startSample : ℕ) : ℚ :=
  (startSample : ℚ) / (targetSampleRate : ℚ) * 1000

/-- The scanning loop of `detect_speech_start`, with explicit fuel standing
for the loop's iteration budget (the loop runs at most `maxSkipMs + 1` times
whenever `stepMs ≥ 1`, so the chosen fuel never runs out on the paths the
script executes).  Arguments after the capability: maximum skip, step, fuel,
current skip (all in milliseconds). -/
def scanForOnset (vad : ℕ → List SpeechSegment) (maxSkipMs stepMs : ℕ) :
    ℕ → ℕ → Option ℚ
  | 0, _ => none
  | fuel + 1, skipMs =>
    if skipMs ≤ maxSkipMs then
      match vad skipMs with
      | [] => scanForOnset vad maxSkipMs stepMs fuel (skipMs + stepMs)
      | seg :: _ =>
        if 1000 < relStartMs seg.start then
          some ((skipMs : ℚ) + relStartMs seg.start)
        else
          scanForOnset vad maxSkipMs stepMs fuel (skipMs + stepMs)
    else none

/-- `detect_speech_start(audio_segment, initial_skip_ms, max_skip_ms,
step_ms)`: scan from the initial skip; `some absoluteStartMs` models a
returned onset and `none` models the raised
`ValueError("Could not find valid speech start after skipping narration")`.
The acceptance threshold of 1000 ms is hard-coded in the source
(`if relative_start_ms > 1000`). -/
def detect_speech_start (vad : ℕ → List SpeechSegment)
    (initialSkipMs maxSkipMs stepMs : ℕ) : Option ℚ :=
  scanForOnset vad maxSkipMs stepMs (maxSkipMs + 1) initialSkipMs

/-- Does the window starting at `skipMs` yield an accepted detection
(at least one segment whose relative start exceeds the 1000 ms threshold)? -/
def acceptsAt (vad : ℕ → List SpeechSegment) (skipMs : ℕ) : Bool :=
  match vad skipMs with
  | [] => false
  | seg :: _ => decide (1000 < relStartMs seg.start)

/-- Following the spec's words (OnsetDetector contract, spec section 4.1):
`findSpeechOnset(clip, initialSkipMs, maxSkipMs, stepMs, minAcceptedOffsetMs)`
with the acceptance threshold supplied by the caller.  This is the second,
spec-side definition of the scan loop, kept for comparison with the
source-side `scanForOnset`, whose threshold is the literal 1000. -/
def findSpeechOnsetSpecAux (vad : ℕ → List SpeechSegment)
    (maxSkipMs stepMs : ℕ) (minAcceptedOffsetMs : ℚ) : ℕ → ℕ → Option ℚ
  | 0, _ => none
  | fuel + 1, skipMs =>
    if skipMs ≤ maxSkipMs then
      match vad skipMs with
      | [] => findSpeechOnsetSpecAux vad maxSkipMs stepMs minAcceptedOffsetMs
          fuel (skipMs + stepMs)
      | seg :: _ =>
        if minAcceptedOffsetMs < relStartMs seg.start then
          some ((skipMs : ℚ) + relStartMs seg.start)
        else
          findSpeechOnsetSpecAux vad maxSkipMs stepMs minAcceptedOffsetMs
            fuel (skipMs + stepMs)
    else none

/-- Following the spec's words: the OnsetDetector contract with
`minAcceptedOffsetMs` exposed as configuration. -/
def findSpeechOnsetSpec (vad : ℕ → List SpeechSegment)
    (initialSkipMs maxSkipMs stepMs : ℕ) (minAcceptedOffsetMs : ℚ) :
    Option ℚ :=
  findSpeechOnsetSpecAux vad maxSkipMs stepMs minAcceptedOffsetMs
    (maxSkipMs + 1) initialSkipMs

/-! ## `preprocess` of `02_preprocess_audio.py`

`preprocess(input_dir, output_dir, corrupted_dir)` iterates over the `.mp3`
files of the input directory; per file it decodes the audio, runs
`detect_speech_start(audio)` (with the call-site arguments 13000, 20000,
2000), trims and exports on success; on any exception it prints a failure
line and moves the source file — and its `.txt` sibling when present — into
the corrupted directory.  The decoded clip is represented by the VAD
behaviour it induces (the only property of the clip the detector consumes);
the decode step is an oracle that either yields that behaviour or fails
with a message. -/

/-- Outcome of `AudioSegment.from_file` for one file: a decoded clip
(represented by its induced VAD behaviour over skip values) or a raised
decode error with message. -/
inductive PreLoad where
  | ok : (ℕ → List SpeechSegment) → PreLoad
  | decodeErr : String → PreLoad

/-- Message of the `ValueError` raised by `detect_speech_start` when the
scan exhausts. -/
def noSpeechMsg : String :=
  "Could not find valid speech start after skipping narration"

/-- Directory state of one `preprocess` run: files still in the input
directory, wav files written to the output directory, files moved into the
corrupted directory, and the printed failure lines (file, reason). -/
structure PreState where
  inputFiles : List String
  outputs : List String
  corrupted : List String
  failureLog : List (String × String)
deriving DecidableEq, Repr

/-- The `except` branch of `preprocess`: print the failure, move the file to
the corrupted directory, and move the `.txt` sibling too when it exists. -/
def quarantineStep (s : PreState) (file msg : String) : PreState :=
  let s1 : PreState :=
    { s with
      failureLog := s.failureLog ++ [(file, msg)]
      inputFiles := s.inputFiles.erase file
      corrupted := s.corrupted ++ [file] }
  let txt := strReplace file ".mp3" ".txt"
  if txt ∈ s1.inputFiles then
    { s1 with
      inputFiles := s1.inputFiles.erase txt
      corrupted := s1.corrupted ++ [txt] }
  else s1

/-- One iteration of the `preprocess` loop body for a directory entry. -/
def preprocessFile (load : String → PreLoad) (s : PreState) (file : String) :
    PreState :=
  if strEndsWith file ".mp3" then
    match load file with
    | .ok vad =>
      match detect_speech_start vad 13000 20000 2000 with
      | some _ => { s with outputs := s.outputs ++ [strReplace file ".mp3" ".wav"] }
      | none => quarantineStep s file noSpeechMsg
    | .decodeErr msg => quarantineStep s file msg
  else s

/-- `preprocess`: fold the loop body over the files initially listed in the
input directory. -/
def preprocess (load : String → PreLoad) (s : PreState) : PreState :=
  s.inputFiles.foldl (preprocessFile load) s

/-! ## The extraction pipeline of `03_extract_embeddings_new.py`

`main()` discovers the wav files (recursively, sorted by path), loads an
optional metadata table keyed by stem, and per file: skips when the
artifact `EMBEDDINGS_DIR/<stem>.npy` already exists; otherwise loads,
extracts and saves the embedding and appends a success row, or on exception
classifies the message (decode-class means quarantine the wav) and appends
a failure row.  `created_utc` is computed once before the loop. -/

/-- One entry of the optional `dialects_metadata.json` document; every field
is consumed through `dict.get(key, "")`, so a missing key and the empty
string are indistinguishable to the script. -/
structure MetaItem where
  local_audio_path : String
  continent : String
  country : String
  speaker : String
  audio_url : String
deriving DecidableEq, Repr

/-- Shape of the parsed metadata JSON as far as the script inspects it: a
list of items, or anything else (which the `isinstance(data, list)` guard
turns into an empty iteration). -/
inductive JsonData where
  | list : List MetaItem → JsonData
  | other : JsonData

/-- `load_optional_metadata(metadata_path)`: empty lookup when the file is
absent (`ex = false`) or `json.loads` raises (`parsed = none`) or the
document is not a list; otherwise the stem-keyed table built from items with
a non-empty `local_audio_path` whose stem is non-empty, later items
overwriting earlier ones. -/
def load_optional_metadata (ex : Bool) (parsed : Option JsonData) :
    String → Option MetaItem :=
  if ex = false then fun _ => none
  else
    match parsed with
    | none => fun _ => none
    | some JsonData.other => fun _ => none
    | some (JsonData.list items) =>
      items.foldl
        (fun acc item =>
          if item.local_audio_path = "" then acc
          else
            let stem := pathStem item.local_audio_path
            if stem = "" then acc
            else fun k => if k = stem then some item else acc k)
        (fun _ => none)

/-- Successful outcome of the fallible section of the loop body
(`load_audio` + `extract_embedding`): the decoded sample rate, number of
samples, and the extracted embedding vector. -/
structure LoadOk where
  sampleRate : ℕ
  numSamples : ℕ
  embedding : List ℚ
deriving DecidableEq, Repr

/-- Per-file outcome of the fallible load/decode/extraction section: success
or an exception with message `str(e)`. -/
inductive LoadResult where
  | ok : LoadOk → LoadResult
  | err : String → LoadResult

/-- `EMBEDDINGS_DIR / f"{stem}.npy"` as a path string. -/
def embPath (stem : String) : String :=
  "data/embeddings/" ++ stem ++ ".npy"

/-- A row of `embeddings_index.csv` (the success ledger), in header order. -/
structure SuccessRow where
  audio_path : String
  audio_filename : String
  audio_stem : String
  embedding_path : String
  embedding_dim : ℕ
  sample_rate : ℕ
  duration_sec : ℚ
  device : String
  created_utc : String
  continent : String
  country : String
  speaker : String
  audio_url : String
deriving DecidableEq, Repr

/-- A row of `embedding_failures.csv` (the failure ledger), in header
order. -/
structure FailureRow where
  audio_path : String
  audio_filename : String
  reason : String
  created_utc : String
deriving DecidableEq, Repr

/-- Primitive observable actions of one pipeline run, in execution order:
skipping a file whose artifact exists, opening a file for load/extraction,
writing an artifact (`np.save`), appending a ledger row, moving a file into
the corrupted directory. -/
inductive Event where
  | skipFile : String → Event
  | loadFile : String → Event
  | writeArtifact : String → Event
  | appendSuccess : SuccessRow → Event
  | appendFailure : FailureRow → Event
  | quarantineFile : String → Event
deriving DecidableEq, Repr

/-- The filesystem-and-ledger state the pipeline manipulates: stems whose
artifact file exists in `EMBEDDINGS_DIR`, files present under the processed
corpus directory, file names moved into `CORRUPTED_DIR`, the two ledgers,
and the three run counters. -/
structure PipelineState where
  artifacts : List String
  corpusFiles : List String
  quarantine : List String
  successRows : List SuccessRow
  failureRows : List FailureRow
  processedCount : ℕ
  skippedCount : ℕ
  failedCount : ℕ
deriving DecidableEq, Repr

/-- The message classification of the `except` branch: `"Error opening
input" in reason or "Decoding failed" in reason or "ffmpeg" in reason`. -/
def isDecodeError (reason : String) : Bool :=
  strContains reason "Error opening input" ||
    strContains reason "Decoding failed" ||
    strContains reason "ffmpeg"

/-- The loop body of `main` for one wav path: returns the successor state
and the events this file produced.  Matches lines 207-276 of the script:
the artifact-existence check precedes any touch of the file; on success the
artifact is saved before the index row is appended; on exception the wav is
moved to the corrupted directory exactly when the message is decode-class,
and one failure row is appended either way. -/
def processFile (oracle : String → LoadResult) (meta : String → Option MetaItem)
    (ts device : String) (s : PipelineState) (path : String) :
    PipelineState × List Event :=
  let stem := pathStem path
  if stem ∈ s.artifacts then
    ({ s with skippedCount := s.skippedCount + 1 }, [Event.skipFile path])
  else
    match oracle path with
    | .ok r =>
      let duration : ℚ :=
        if r.sampleRate = 0 then 0 else (r.numSamples : ℚ) / (r.sampleRate : ℚ)
      let row : SuccessRow :=
        { audio_path := path
          audio_filename := fileName path
          audio_stem := stem
          embedding_path := embPath stem
          embedding_dim := r.embedding.length
          sample_rate := r.sampleRate
          duration_sec := duration
          device := device
          created_utc := ts
          continent := (meta stem).elim "" MetaItem.continent
          country := (meta stem).elim "" MetaItem.country
          speaker := (meta stem).elim "" MetaItem.speaker
          audio_url := (meta stem).elim "" MetaItem.audio_url }
      ({ s with
          artifacts := stem :: s.artifacts
          successRows := s.successRows ++ [row]
          processedCount := s.processedCount + 1 },
        [Event.loadFile path, Event.writeArtifact stem, Event.appendSuccess row])
    | .err reason =>
      let frow : FailureRow :=
        { audio_path := path
          audio_filename := fileName path
          reason := reason
          created_utc := ts }
      if isDecodeError reason then
        ({ s with
            corpusFiles := s.corpusFiles.erase path
            quarantine := s.quarantine ++ [fileName path]
            failureRows := s.failureRows ++ [frow]
            failedCount := s.failedCount + 1 },
          [Event.loadFile path, Event.quarantineFile path, Event.appendFailure frow])
      else
        ({ s with
            failureRows := s.failureRows ++ [frow]
            failedCount := s.failedCount + 1 },
          [Event.loadFile path, Event.appendFailure frow])

/-- The pipeline loop over an explicit list of wav paths, accumulating the
event trace. -/
def runPipelineAux (oracle : String → LoadResult)
    (meta : String → Option MetaItem) (ts device : String) :
    PipelineState → List String → PipelineState × List Event
  | s, [] => (s, [])
  | s, p :: ps =>
    let out := processFile oracle meta ts device s p
    let rest := runPipelineAux oracle meta ts device out.1 ps
    (rest.1, out.2 ++ rest.2)

/-- `sorted(PROCESSED_AUDIO_DIR.rglob("*.wav"))`: the wav files currently in
the corpus, in ascending path order. -/
def discoverWavFiles (s : PipelineState) : List String :=
  sortStrings (s.corpusFiles.filter (fun f => strEndsWith f ".wav"))

/-- One full run of `main`'s extraction loop: discover the wav files from
the current corpus state, then process each in order. -/
def runPipeline (oracle : String → LoadResult)
    (meta : String → Option MetaItem) (ts device : String)
    (s : PipelineState) : PipelineState × List Event :=
  runPipelineAux oracle meta ts device s (discoverWavFiles s)

/-- Trace invariant for the write-then-index discipline: scanning the events
left to right while carrying the multiset of artifact stems written so far
(on top of `written`), every success-row append names a stem already
written. -/
def writesPrecedeSuccesses (written : List String) : List Event → Prop
  | [] => True
  | Event.writeArtifact st :: rest => writesPrecedeSuccesses (st :: written) rest
  | Event.appendSuccess row :: rest =>
    row.audio_stem ∈ written ∧ writesPrecedeSuccesses written rest
  | _ :: rest => writesPrecedeSuccesses written rest

/-! ## Lemmas about the onset scan -/

theorem scanForOnset_fuel_congr (vad : ℕ → List SpeechSegment)
    (maxS step : ℕ) (hstep : 1 ≤ step) :
    ∀ f₁ f₂ skip, maxS + 1 ≤ skip + f₁ → maxS + 1 ≤ skip + f₂ →
      scanForOnset vad maxS step f₁ skip = scanForOnset vad maxS step f₂ skip := by
  intro f₁
  induction f₁ with
  | zero =>
    intro f₂ skip h₁ h₂
    have hgt : ¬ skip ≤ maxS := by omega
    cases f₂ with
    | zero => rfl
    | succ f₂ => simp [scanForOnset, hgt]
  | succ f₁ ih =>
    intro f₂ skip h₁ h₂
    cases f₂ with
    | zero =>
      have hgt : ¬ skip ≤ maxS := by omega
      simp [scanForOnset, hgt]
    | succ f₂ =>
      by_cases hle : skip ≤ maxS
      · simp only [scanForOnset, if_pos hle]
        cases hv : vad skip with
        | nil => exact ih f₂ (skip + step) (by omega) (by omega)
        | cons seg rest =>
          by_cases hrel : 1000 < relStartMs seg.start
          · simp [hrel]
          · simp only [if_neg hrel]
            exact ih f₂ (skip + step) (by omega) (by omega)
      · simp [scanForOnset, hle]

theorem scanForOnset_some_gt (vad : ℕ → List SpeechSegment) (maxS step : ℕ) :
    ∀ fuel skip r, scanForOnset vad maxS step fuel skip = some r →
      (skip : ℚ) + 1000 < r := by
  intro fuel
  induction fuel with
  | zero => intro skip r h; simp [scanForOnset] at h
  | succ fuel ih =>
    intro skip r h
    by_cases hle : skip ≤ maxS
    · rw [scanForOnset, if_pos hle] at h
      cases hv : vad skip with
      | nil =>
        rw [hv] at h
        have := ih (skip + step) r h
        have hcast : ((skip + step : ℕ) : ℚ) = (skip : ℚ) + (step : ℚ) := by
          push_cast; ring
        have hnn : (0 : ℚ) ≤ (step : ℚ) := Nat.cast_nonneg step
        rw [hcast] at this
        linarith
      | cons seg rest =>
        rw [hv] at h
        dsimp only at h
        by_cases hrel : 1000 < relStartMs seg.start
        · rw [if_pos hrel] at h
          have hr : (skip : ℚ) + relStartMs seg.start = r := Option.some.inj h
          linarith
        · rw [if_neg hrel] at h
          have := ih (skip + step) r h
          have hcast : ((skip + step : ℕ) : ℚ) = (skip : ℚ) + (step : ℚ) := by
            push_cast; ring
          have hnn : (0 : ℚ) ≤ (step : ℚ) := Nat.cast_nonneg step
          rw [hcast] at this
          linarith
    · rw [scanForOnset, if_neg hle] at h
      exact absurd h (by simp)

theorem scanForOnset_none_iff (vad : ℕ → List SpeechSegment)
    (maxS step : ℕ) (hstep : 1 ≤ step) :
    ∀ fuel skip, maxS + 1 ≤ skip + fuel →
      (scanForOnset vad maxS step fuel skip = none ↔
        ∀ k : ℕ, skip + k * step ≤ maxS →
          acceptsAt vad (skip + k * step) = false) := by
  intro fuel
  induction fuel with
  | zero =>
    intro skip hbound
    constructor
    · intro _ k hk
      have := Nat.le_add_right skip (k * step)
      omega
    · intro _
      rfl
  | succ fuel ih =>
    intro skip hbound
    by_cases hle : skip ≤ maxS
    · cases hv : vad skip with
      | nil =>
        have heq : scanForOnset vad maxS step (fuel + 1) skip =
            scanForOnset vad maxS step fuel (skip + step) := by
          simp [scanForOnset, hle, hv]
        rw [heq, ih (skip + step) (by omega)]
        constructor
        · intro h k hk
          cases k with
          | zero =>
            have hz : skip + 0 * step = skip := by ring
            rw [hz]
            simp [acceptsAt, hv]
          | succ k =>
            have harith : skip + (k + 1) * step = (skip + step) + k * step := by ring
            rw [harith] at hk ⊢
            exact h k hk
        · intro h k hk
          have harith : (skip + step) + k * step = skip + (k + 1) * step := by ring
          rw [harith] at hk ⊢
          exact h (k + 1) hk
      | cons seg rest =>
        by_cases hrel : 1000 < relStartMs seg.start
        · apply iff_of_false
          · simp [scanForOnset, hle, hv, hrel]
          · intro h
            have h0 := h 0 (by omega)
            have hz : skip + 0 * step = skip := by ring
            rw [hz] at h0
            simp [acceptsAt, hv, hrel] at h0
        · have heq : scanForOnset vad maxS step (fuel + 1) skip =
              scanForOnset vad maxS step fuel (skip + step) := by
            simp [scanForOnset, hle, hv, hrel]
          rw [heq, ih (skip + step) (by omega)]
          constructor
          · intro h k hk
            cases k with
            | zero =>
              have hz : skip + 0 * step = skip := by ring
              rw [hz]
              simp [acceptsAt, hv, hrel]
            | succ k =>
              have harith : skip + (k + 1) * step = (skip + step) + k * step := by ring
              rw [harith] at hk ⊢
              exact h k hk
          · intro h k hk
            have harith : (skip + step) + k * step = skip + (k + 1) * step := by ring
            rw [harith] at hk ⊢
            exact h (k + 1) hk
    · apply iff_of_true
      · simp [scanForOnset, hle]
      · intro k hk
        have := Nat.le_add_right skip (k * step)
        omega

theorem scanForOnset_eq_spec1000 (vad : ℕ → List SpeechSegment)
    (maxS step : ℕ) :
    ∀ fuel skip, scanForOnset vad maxS step fuel skip =
      findSpeechOnsetSpecAux vad maxS step 1000 fuel skip := by
  intro fuel
  induction fuel with
  | zero => intro skip; rfl
  | succ fuel ih =>
    intro skip
    by_cases hle : skip ≤ maxS
    · simp only [scanForOnset, findSpeechOnsetSpecAux, if_pos hle]
      cases hv : vad skip with
      | nil => exact ih (skip + step)
      | cons seg rest =>
        by_cases hrel : 1000 < relStartMs seg.start
        · simp [hrel]
        · simp only [if_neg hrel]
          exact ih (skip + step)
    · simp [scanForOnset, findSpeechOnsetSpecAux, hle]

/-! ## Claims about the onset detector -/

/-- C1: at any window `skip ≤ maxSkipMs` that the scan of
`detect_speech_start` can examine, if the speech-activity capability returns
at least one segment, the scan returns `skip + relativeStart` (with
`relativeStart = segments[0].start` converted to milliseconds) exactly when
`relativeStart` is strictly greater than the 1000 ms threshold; otherwise
the scan continues from `skip + stepMs` and no result it ever returns equals
that window's offset.  The first conjunct ties `detect_speech_start` to the
scan it runs from `initialSkipMs`. -/
theorem detect_accepts_iff_over_threshold (vad : ℕ → List SpeechSegment)
    (initialSkipMs maxSkipMs stepMs skip : ℕ) (seg : SpeechSegment)
    (rest : List SpeechSegment) (hstep : 1 ≤ stepMs) (hskip : skip ≤ maxSkipMs)
    (hvad : vad skip = seg :: rest) :
    detect_speech_start vad initialSkipMs maxSkipMs stepMs =
      scanForOnset vad maxSkipMs stepMs (maxSkipMs + 1) initialSkipMs
    ∧ (1000 < relStartMs seg.start →
        scanForOnset vad maxSkipMs stepMs (maxSkipMs + 1) skip =
          some ((skip : ℚ) + relStartMs seg.start))
    ∧ (relStartMs seg.start ≤ 1000 →
        scanForOnset vad maxSkipMs stepMs (maxSkipMs + 1) skip =
          scanForOnset vad maxSkipMs stepMs (maxSkipMs + 1) (skip + stepMs)
        ∧ ∀ r : ℚ,
            scanForOnset vad maxSkipMs stepMs (maxSkipMs + 1) skip = some r →
              (skip : ℚ) + relStartMs seg.start < r) := by
  refine ⟨rfl, ?_, ?_⟩
  · intro hrel
    simp [scanForOnset, hskip, hvad, hrel]
  · intro hrel
    have hnlt : ¬ 1000 < relStartMs seg.start := not_lt.mpr hrel
    constructor
    · have h1 : scanForOnset vad maxSkipMs stepMs (maxSkipMs + 1) skip =
          scanForOnset vad maxSkipMs stepMs maxSkipMs (skip + stepMs) := by
        simp [scanForOnset, hskip, hvad, hnlt]
      rw [h1]
      exact scanForOnset_fuel_congr vad maxSkipMs stepMs hstep maxSkipMs
        (maxSkipMs + 1) (skip + stepMs) (by omega) (by omega)
    · intro r hr
      have := scanForOnset_some_gt vad maxSkipMs stepMs (maxSkipMs + 1) skip r hr
      linarith

/-- Witness for C1: with a capability that reports a segment starting at
sample 24000 (1500 ms) for the sub-clip at skip 13000 and nothing
elsewhere, the detector accepts and returns 14500 ms. -/
def vadAccept : ℕ → List SpeechSegment := fun s =>
  if s = 13000 then [⟨24000, 40000⟩] else []

theorem detect_accepts_iff_over_threshold_witness :
    detect_speech_start vadAccept 13000 20000 2000 = some 14500 := by
  have h := detect_accepts_iff_over_threshold vadAccept 13000 20000 2000 13000
    ⟨24000, 40000⟩ [] (by omega) (by omega) (by with_unfolding_all rfl)
  have h2 := h.2.1 (by norm_num [relStartMs, targetSampleRate])
  rw [h.1]
  have : ((13000 : ℕ) : ℚ) + relStartMs 24000 = 14500 := by
    norm_num [relStartMs, targetSampleRate]
  rw [h2, this]

/-- C5: the detector fails (returns the `NoSpeechFound` outcome, i.e. the
raised `ValueError`) exactly when no scanned window — the skips
`initialSkipMs + k·stepMs` that are at most `maxSkipMs` — yields an accepted
detection (no segments, or a first segment at most 1000 ms after the
skip). -/
theorem detect_noSpeech_iff_no_accepted_window (vad : ℕ → List SpeechSegment)
    (initialSkipMs maxSkipMs stepMs : ℕ) (hstep : 1 ≤ stepMs) :
    detect_speech_start vad initialSkipMs maxSkipMs stepMs = none ↔
      ∀ k : ℕ, initialSkipMs + k * stepMs ≤ maxSkipMs →
        acceptsAt vad (initialSkipMs + k * stepMs) = false :=
  scanForOnset_none_iff vad maxSkipMs stepMs hstep (maxSkipMs + 1)
    initialSkipMs (by omega)

/-- Witness for C5: with a capability that never reports activity, the
detector fails with no speech found. -/
theorem detect_noSpeech_iff_no_accepted_window_witness :
    detect_speech_start (fun _ => []) 13000 20000 2000 = none :=
  (detect_noSpeech_iff_no_accepted_window (fun _ => []) 13000 20000 2000
    (by omega)).mpr (fun _ _ => rfl)

/-- C7 counterexample: a capability that always reports a segment 500 ms
after the cut.  Under the spec's parameterized contract with
`minAcceptedOffsetMs = 0` the onset 13500 ms is accepted at the first
window, but `detect_speech_start` — whose threshold is the hard-coded
literal 1000 — rejects every window and fails, so the source detector does
not implement the spec contract for a caller-supplied threshold. -/
def vadEarly : ℕ → List SpeechSegment := fun _ => [⟨8000, 16000⟩]

theorem minAccepted_not_configurable :
    detect_speech_start vadEarly 13000 20000 2000 ≠
      findSpeechOnsetSpec vadEarly 13000 20000 2000 0 := by
  with_unfolding_all decide

/-- C7 as amended: `initialSkipMs`, `maxSkipMs` and `stepMs` are caller
configuration of `detect_speech_start`, but the acceptance threshold is the
hard-coded literal 1000: the detector coincides with the spec's
`findSpeechOnset` contract exactly at `minAcceptedOffsetMs = 1000`, for
every configuration of the three exposed parameters. -/
theorem findSpeechOnset_matches_spec_at_1000 (vad : ℕ → List SpeechSegment)
    (initialSkipMs maxSkipMs stepMs : ℕ) :
    detect_speech_start vad initialSkipMs maxSkipMs stepMs =
      findSpeechOnsetSpec vad initialSkipMs maxSkipMs stepMs 1000 :=
  scanForOnset_eq_spec1000 vad maxSkipMs stepMs (maxSkipMs + 1) initialSkipMs

/-! ## Claims about `preprocess` (02_preprocess_audio.py) -/

/-- C3 counterexample input: decoding succeeds everywhere but the VAD never
reports activity, so `detect_speech_start` exhausts its scan and raises. -/
def loadNoSpeech : String → PreLoad := fun _ => .ok (fun _ => [])

/-- C3 counterexample input: an input directory holding one mp3 and its
sibling transcript. -/
def preStateA : PreState := ⟨["a.mp3", "a.txt"], [], [], []⟩

/-- C3 counterexample: on a file whose onset scan exhausts (`NoSpeechFound`),
`preprocess` moves the source file and its `.txt` sibling into the corrupted
directory — the file does not stay in place, contradicting the claim that a
`NoSpeechFound` failure is not quarantined. -/
theorem noSpeech_is_quarantined :
    (preprocess loadNoSpeech preStateA).corrupted = ["a.mp3", "a.txt"]
    ∧ "a.mp3" ∉ (preprocess loadNoSpeech preStateA).inputFiles
    ∧ (preprocess loadNoSpeech preStateA).failureLog =
        [("a.mp3", noSpeechMsg)] := by
  with_unfolding_all decide

/-- C3 as amended: when the onset detector fails with `NoSpeechFound` on a
decodable `.mp3` file, `preprocess` logs exactly one failure for it and
quarantines it like any other failure: the file moves into the corrupted
directory (out of the input listing), and its `.txt` sibling, when present,
moves with it. -/
theorem noSpeechFound_quarantines (load : String → PreLoad) (s : PreState)
    (file : String) (vad : ℕ → List SpeechSegment)
    (hmp3 : strEndsWith file ".mp3" = true)
    (hload : load file = .ok vad)
    (hdetect : detect_speech_start vad 13000 20000 2000 = none) :
    preprocessFile load s file = quarantineStep s file noSpeechMsg
    ∧ (preprocessFile load s file).failureLog =
        s.failureLog ++ [(file, noSpeechMsg)]
    ∧ file ∈ (preprocessFile load s file).corrupted
    ∧ (strReplace file ".mp3" ".txt" ∈ (s.inputFiles.erase file) →
        strReplace file ".mp3" ".txt" ∈ (preprocessFile load s file).corrupted) := by
  have hstep : preprocessFile load s file = quarantineStep s file noSpeechMsg := by
    simp [preprocessFile, hmp3, hload, hdetect]
  refine ⟨hstep, ?_, ?_, ?_⟩ <;> rw [hstep] <;> unfold quarantineStep
  · by_cases htxt : strReplace file ".mp3" ".txt" ∈ s.inputFiles.erase file <;>
      simp [htxt]
  · by_cases htxt : strReplace file ".mp3" ".txt" ∈ s.inputFiles.erase file <;>
      simp [htxt]
  · intro htxt
    simp [htxt]

theorem noSpeechFound_quarantines_witness :
    preprocessFile loadNoSpeech preStateA "a.mp3" =
      quarantineStep preStateA "a.mp3" noSpeechMsg
    ∧ "a.mp3" ∈ (preprocessFile loadNoSpeech preStateA "a.mp3").corrupted := by
  have h := noSpeechFound_quarantines loadNoSpeech preStateA "a.mp3" (fun _ => [])
    (by decide) rfl (by with_unfolding_all rfl)
  exact ⟨h.1, h.2.2.1⟩

/-! ## Basic lemmas about `processFile` and `runPipelineAux` -/

theorem processFile_skip (oracle : String → LoadResult)
    (meta : String → Option MetaItem) (ts device : String)
    (s : PipelineState) (p : String) (h : pathStem p ∈ s.artifacts) :
    processFile oracle meta ts device s p =
      ({ s with skippedCount := s.skippedCount + 1 }, [Event.skipFile p]) := by
  simp [processFile, h]

theorem processFile_artifacts_mono (oracle : String → LoadResult)
    (meta : String → Option MetaItem) (ts device : String)
    (s : PipelineState) (p : String) :
    s.artifacts ⊆ (processFile oracle meta ts device s p).1.artifacts := by
  by_cases h : pathStem p ∈ s.artifacts
  · simp [processFile, h]
  · cases ho : oracle p with
    | ok r =>
      simp only [processFile, if_neg h, ho]
      exact fun x hx => List.mem_cons_of_mem _ hx
    | err reason =>
      by_cases hd : isDecodeError reason <;>
        simp [processFile, if_neg h, ho, hd, List.Subset.refl]

theorem processFile_corpus_shrink (oracle : String → LoadResult)
    (meta : String → Option MetaItem) (ts device : String)
    (s : PipelineState) (p : String) :
    (processFile oracle meta ts device s p).1.corpusFiles ⊆ s.corpusFiles := by
  by_cases h : pathStem p ∈ s.artifacts
  · simp [processFile, h]
  · cases ho : oracle p with
    | ok r => simp [processFile, if_neg h, ho, List.Subset.refl]
    | err reason =>
      by_cases hd : isDecodeError reason <;>
        simp [processFile, if_neg h, ho, hd, List.Subset.refl,
          List.erase_subset]

theorem runAux_artifacts_mono (oracle : String → LoadResult)
    (meta : String → Option MetaItem) (ts device : String) :
    ∀ (files : List String) (s : PipelineState),
      s.artifacts ⊆ (runPipelineAux oracle meta ts device s files).1.artifacts := by
  intro files
  induction files with
  | nil => intro s; exact List.Subset.refl _
  | cons p ps ih =>
    intro s
    exact (processFile_artifacts_mono oracle meta ts device s p).trans
      (ih (processFile oracle meta ts device s p).1)

theorem runAux_corpus_shrink (oracle : String → LoadResult)
    (meta : String → Option MetaItem) (ts device : String) :
    ∀ (files : List String) (s : PipelineState),
      (runPipelineAux oracle meta ts device s files).1.corpusFiles ⊆
        s.corpusFiles := by
  intro files
  induction files with
  | nil => intro s; exact List.Subset.refl _
  | cons p ps ih =>
    intro s
    exact (ih (processFile oracle meta ts device s p).1).trans
      (processFile_corpus_shrink oracle meta ts device s p)

/-! ## C4: failure classification -/

/-- C4 counterexample input: every load raises a decode-class error. -/
def oracleDecodeFail : String → LoadResult := fun _ =>
  .err "Decoding failed: invalid data"

/-- C4 counterexample input: the corpus holds one wav and its same-stem
transcript sibling. -/
def stateSibling : PipelineState :=
  ⟨[], ["x.wav", "x.txt"], [], [], [], 0, 0, 0⟩

/-- C4 counterexample: on a decode-class failure the pipeline quarantines
only the wav file; the same-stem `.txt` sibling stays in the corpus
directory, contradicting the claim that the textual sibling is moved into
the quarantine directory too. -/
theorem decode_error_leaves_sibling :
    (runPipeline oracleDecodeFail (fun _ => none) "t" "cpu" stateSibling).1.quarantine
      = ["x.wav"]
    ∧ "x.txt" ∈ (runPipeline oracleDecodeFail (fun _ => none) "t" "cpu"
        stateSibling).1.corpusFiles := by
  with_unfolding_all decide

/-- C4 as amended: on any per-file exception during load/decode/extraction,
the pipeline appends exactly one failure row and continues with the next
file; decode-class messages (matched by content) additionally move the
source wav file — but not its textual sibling — into the quarantine
directory, while all other errors leave the corpus untouched; no success
row is appended either way. -/
theorem errors_classified_and_logged (oracle : String → LoadResult)
    (meta : String → Option MetaItem) (ts device : String)
    (s : PipelineState) (p : String) (ps : List String) (reason : String)
    (h1 : oracle p = .err reason) (h2 : pathStem p ∉ s.artifacts) :
    (processFile oracle meta ts device s p).1.failureRows =
        s.failureRows ++ [⟨p, fileName p, reason, ts⟩]
    ∧ (processFile oracle meta ts device s p).1.successRows = s.successRows
    ∧ (isDecodeError reason = true →
        (processFile oracle meta ts device s p).1.quarantine =
            s.quarantine ++ [fileName p]
        ∧ (processFile oracle meta ts device s p).1.corpusFiles =
            s.corpusFiles.erase p)
    ∧ (isDecodeError reason = false →
        (processFile oracle meta ts device s p).1.quarantine = s.quarantine
        ∧ (processFile oracle meta ts device s p).1.corpusFiles = s.corpusFiles)
    ∧ runPipelineAux oracle meta ts device s (p :: ps) =
        ((runPipelineAux oracle meta ts device
            (processFile oracle meta ts device s p).1 ps).1,
          (processFile oracle meta ts device s p).2 ++
            (runPipelineAux oracle meta ts device
              (processFile oracle meta ts device s p).1 ps).2) := by
  refine ⟨?_, ?_, ?_, ?_, rfl⟩ <;>
    by_cases hd : isDecodeError reason <;>
      simp [processFile, h1, h2, hd]

theorem errors_classified_and_logged_witness :
    (processFile oracleDecodeFail (fun _ => none) "t" "cpu" stateSibling
        "x.wav").1.failureRows =
      [⟨"x.wav", "x.wav", "Decoding failed: invalid data", "t"⟩]
    ∧ (processFile oracleDecodeFail (fun _ => none) "t" "cpu" stateSibling
        "x.wav").1.quarantine = ["x.wav"] := by
  have h := errors_classified_and_logged oracleDecodeFail (fun _ => none)
    "t" "cpu" stateSibling "x.wav" [] "Decoding failed: invalid data" rfl
    (by simp [stateSibling])
  refine ⟨?_, ?_⟩
  · have := h.1
    simpa [stateSibling] using this
  · have := (h.2.2.1 (by with_unfolding_all decide)).1
    simpa [stateSibling] using this

/-! ## C2: idempotent second run -/

theorem processFile_stable (oracle : String → LoadResult)
    (meta : String → Option MetaItem) (ts device : String)
    (s : PipelineState) (p : String)
    (h : pathStem p ∈ s.artifacts ∨ ∃ r, oracle p = .err r) :
    (processFile oracle meta ts device s p).1.artifacts = s.artifacts
    ∧ (processFile oracle meta ts device s p).1.successRows = s.successRows := by
  by_cases hmem : pathStem p ∈ s.artifacts
  · simp [processFile, hmem]
  · rcases h with h | ⟨r, hr⟩
    · exact absurd h hmem
    · by_cases hd : isDecodeError r <;> simp [processFile, hmem, hr, hd]

theorem runAux_covers (oracle : String → LoadResult)
    (meta : String → Option MetaItem) (ts device : String) :
    ∀ (files : List String) (s : PipelineState) (p : String), p ∈ files →
      pathStem p ∈ (runPipelineAux oracle meta ts device s files).1.artifacts
      ∨ ∃ r, oracle p = .err r := by
  intro files
  induction files with
  | nil => intro s p h; exact absurd h (List.not_mem_nil p)
  | cons q ps ih =>
    intro s p h
    rcases List.mem_cons.mp h with rfl | hmem
    · by_cases hmem : pathStem p ∈ s.artifacts
      · left
        exact runAux_artifacts_mono oracle meta ts device ps _
          (processFile_artifacts_mono oracle meta ts device s p hmem)
      · cases ho : oracle p with
        | ok r =>
          left
          refine runAux_artifacts_mono oracle meta ts device ps _ ?_
          simp [processFile, hmem, ho]
        | err reason => exact Or.inr ⟨reason, rfl⟩
    · exact ih (processFile oracle meta ts device s q).1 p hmem

theorem runAux_stable (oracle : String → LoadResult)
    (meta : String → Option MetaItem) (ts device : String) :
    ∀ (files : List String) (s : PipelineState),
      (∀ p ∈ files, pathStem p ∈ s.artifacts ∨ ∃ r, oracle p = .err r) →
        (runPipelineAux oracle meta ts device s files).1.artifacts = s.artifacts
        ∧ (runPipelineAux oracle meta ts device s files).1.successRows =
            s.successRows := by
  intro files
  induction files with
  | nil => intro s _; exact ⟨rfl, rfl⟩
  | cons p ps ih =>
    intro s h
    have hp := h p (List.mem_cons_self p ps)
    have hstep := processFile_stable oracle meta ts device s p hp
    have htail := ih (processFile oracle meta ts device s p).1
      (fun q hq => by rw [hstep.1]; exact h q (List.mem_cons_of_mem p hq))
    refine ⟨?_, ?_⟩
    · rw [show runPipelineAux oracle meta ts device s (p :: ps) =
          ((runPipelineAux oracle meta ts device
              (processFile oracle meta ts device s p).1 ps).1,
            (processFile oracle meta ts device s p).2 ++
              (runPipelineAux oracle meta ts device
                (processFile oracle meta ts device s p).1 ps).2) from rfl]
      rw [htail.1, hstep.1]
    · rw [show runPipelineAux oracle meta ts device s (p :: ps) =
          ((runPipelineAux oracle meta ts device
              (processFile oracle meta ts device s p).1 ps).1,
            (processFile oracle meta ts device s p).2 ++
              (runPipelineAux oracle meta ts device
                (processFile oracle meta ts device s p).1 ps).2) from rfl]
      rw [htail.2, hstep.2]

theorem mem_discoverWavFiles (s : PipelineState) (x : String) :
    x ∈ discoverWavFiles s ↔ x ∈ s.corpusFiles ∧ strEndsWith x ".wav" = true := by
  simp [discoverWavFiles, mem_sortStrings, List.mem_filter]

/-- C2: running the pipeline a second time from the state the first run
produced (same oracle, same metadata — the corpus unchanged) leaves the
artifact set and the success ledger unchanged (hence its row count), and any
file whose artifact stem already exists is counted as skipped, producing
only a skip event: the audio is not loaded and extraction is not invoked. -/
theorem pipeline_second_run_idempotent (oracle : String → LoadResult)
    (meta : String → Option MetaItem) (ts ts2 device : String)
    (s₀ : PipelineState) :
    (runPipeline oracle meta ts2 device
        (runPipeline oracle meta ts device s₀).1).1.artifacts =
      (runPipeline oracle meta ts device s₀).1.artifacts
    ∧ (runPipeline oracle meta ts2 device
        (runPipeline oracle meta ts device s₀).1).1.successRows =
      (runPipeline oracle meta ts device s₀).1.successRows
    ∧ ∀ (s : PipelineState) (p : String), pathStem p ∈ s.artifacts →
        processFile oracle meta ts2 device s p =
          ({ s with skippedCount := s.skippedCount + 1 }, [Event.skipFile p]) := by
  have hmain := runAux_stable oracle meta ts2 device
    (discoverWavFiles (runPipeline oracle meta ts device s₀).1)
    (runPipeline oracle meta ts device s₀).1 ?_
  · exact ⟨hmain.1, hmain.2, fun s p h => processFile_skip oracle meta ts2 device s p h⟩
  · intro p hp
    have hp' := (mem_discoverWavFiles _ p).mp hp
    have hcorp : p ∈ s₀.corpusFiles :=
      runAux_corpus_shrink oracle meta ts device (discoverWavFiles s₀) s₀ hp'.1
    have hdisc : p ∈ discoverWavFiles s₀ :=
      (mem_discoverWavFiles s₀ p).mpr ⟨hcorp, hp'.2⟩
    exact runAux_covers oracle meta ts device (discoverWavFiles s₀) s₀ p hdisc

/-- Oracle for the pipeline witnesses: loading and extraction always succeed
(sample rate 0 keeps the duration arithmetic trivial, as the script itself
does for a zero rate). -/
def oracleOk : String → LoadResult := fun _ => .ok ⟨0, 0, [(1 : ℚ)]⟩

/-- Witness state for C2: the artifact for stem `x` already exists. -/
def stateArtifactX : PipelineState := ⟨["x"], [], [], [], [], 0, 0, 0⟩

theorem pipeline_second_run_idempotent_witness :
    processFile oracleOk (fun _ => none) "t2" "cpu" stateArtifactX "x.wav" =
      ({ stateArtifactX with skippedCount := 1 }, [Event.skipFile "x.wav"]) := by
  have h := (pipeline_second_run_idempotent oracleOk (fun _ => none) "t" "t2"
    "cpu" stateArtifactX).2.2
  exact h stateArtifactX "x.wav" (by with_unfolding_all decide)

/-! ## C6: write-then-index ordering -/

theorem runAux_writesPrecede (oracle : String → LoadResult)
    (meta : String → Option MetaItem) (ts device : String) :
    ∀ (files : List String) (s : PipelineState) (w : List String),
      writesPrecedeSuccesses w
        (runPipelineAux oracle meta ts device s files).2 := by
  intro files
  induction files with
  | nil => intro s w; trivial
  | cons p ps ih =>
    intro s w
    by_cases hmem : pathStem p ∈ s.artifacts
    · have hps := processFile_skip oracle meta ts device s p hmem
      simp only [runPipelineAux, hps]
      exact ih _ _
    · cases ho : oracle p with
      | ok r =>
        simp only [runPipelineAux, processFile, if_neg hmem, ho]
        exact ⟨List.mem_cons_self _ _, ih _ _⟩
      | err reason =>
        by_cases hd : isDecodeError reason <;>
          · simp only [runPipelineAux, processFile, if_neg hmem, ho, hd]
            exact ih _ _

theorem wps_split :
    ∀ (l₁ : List Event) (w : List String) (row : SuccessRow) (l₂ : List Event),
      writesPrecedeSuccesses w (l₁ ++ Event.appendSuccess row :: l₂) →
        row.audio_stem ∈ w ∨ Event.writeArtifact row.audio_stem ∈ l₁ := by
  intro l₁
  induction l₁ with
  | nil => intro w row l₂ h; exact Or.inl h.1
  | cons e t ih =>
    intro w row l₂ h
    cases e with
    | writeArtifact st =>
      rcases ih (st :: w) row l₂ h with hmem | hmem
      · rcases List.mem_cons.mp hmem with heq | hw
        · right
          rw [heq]
          exact List.mem_cons_self _ _
        · exact Or.inl hw
      · exact Or.inr (List.mem_cons_of_mem _ hmem)
    | appendSuccess r =>
      rcases ih w row l₂ h.2 with hmem | hmem
      · exact Or.inl hmem
      · exact Or.inr (List.mem_cons_of_mem _ hmem)
    | skipFile q =>
      rcases ih w row l₂ h with hmem | hmem
      · exact Or.inl hmem
      · exact Or.inr (List.mem_cons_of_mem _ hmem)
    | loadFile q =>
      rcases ih w row l₂ h with hmem | hmem
      · exact Or.inl hmem
      · exact Or.inr (List.mem_cons_of_mem _ hmem)
    | appendFailure f =>
      rcases ih w row l₂ h with hmem | hmem
      · exact Or.inl hmem
      · exact Or.inr (List.mem_cons_of_mem _ hmem)
    | quarantineFile q =>
      rcases ih w row l₂ h with hmem | hmem
      · exact Or.inl hmem
      · exact Or.inr (List.mem_cons_of_mem _ hmem)

/-- C6: in the event trace of any pipeline run, every append of a success
row is preceded by the write of that row's artifact: scanning left to right
(accumulating written stems), each success append names an already-written
stem, and in any decomposition of the trace around a success append the
matching artifact write lies strictly earlier. -/
theorem artifact_written_before_indexed (oracle : String → LoadResult)
    (meta : String → Option MetaItem) (ts device : String)
    (s₀ : PipelineState) :
    writesPrecedeSuccesses [] (runPipeline oracle meta ts device s₀).2
    ∧ ∀ (l₁ : List Event) (row : SuccessRow) (l₂ : List Event),
        (runPipeline oracle meta ts device s₀).2 =
            l₁ ++ Event.appendSuccess row :: l₂ →
          Event.writeArtifact row.audio_stem ∈ l₁ := by
  have hmain := runAux_writesPrecede oracle meta ts device
    (discoverWavFiles s₀) s₀ []
  refine ⟨hmain, ?_⟩
  intro l₁ row l₂ heq
  have h := hmain
  rw [show (runPipelineAux oracle meta ts device s₀ (discoverWavFiles s₀)).2 =
      (runPipeline oracle meta ts device s₀).2 from rfl, heq] at h
  rcases wps_split l₁ [] row l₂ h with hmem | hmem
  · exact absurd hmem (List.not_mem_nil _)
  · exact hmem

/-- Witness corpus for the pipeline: a single wav file, nothing extracted
yet. -/
def stateOneWav : PipelineState := ⟨[], ["x.wav"], [], [], [], 0, 0, 0⟩

/-- The success row the witness run appends for `x.wav`. -/
def rowX : SuccessRow :=
  ⟨"x.wav", "x.wav", "x", embPath "x", 1, 0, 0, "cpu", "t", "", "", "", ""⟩

theorem artifact_written_before_indexed_witness :
    Event.writeArtifact rowX.audio_stem ∈
      [Event.loadFile "x.wav", Event.writeArtifact "x"] :=
  (artifact_written_before_indexed oracleOk (fun _ => none) "t" "cpu"
      stateOneWav).2
    [Event.loadFile "x.wav", Event.writeArtifact "x"] rowX []
    (by with_unfolding_all rfl)

/-! ## C8: optional metadata enrichment -/

/-- C8: a missing metadata document or one whose parse raises yields an
empty stem-keyed lookup, and for a successfully processed file whose stem
has no entry in the lookup, the appended success row carries empty strings
in all four provenance fields. -/
theorem missing_metadata_defaults_empty (oracle : String → LoadResult)
    (meta : String → Option MetaItem) (ts device : String)
    (s : PipelineState) (p : String) (lr : LoadOk)
    (h1 : oracle p = .ok lr) (h2 : pathStem p ∉ s.artifacts)
    (h3 : meta (pathStem p) = none) :
    (∀ (parsed : Option JsonData) (k : String),
        load_optional_metadata false parsed k = none)
    ∧ (∀ k : String, load_optional_metadata true none k = none)
    ∧ ∃ row : SuccessRow,
        (processFile oracle meta ts device s p).1.successRows =
            s.successRows ++ [row]
        ∧ row.continent = "" ∧ row.country = "" ∧ row.speaker = ""
        ∧ row.audio_url = "" := by
  refine ⟨fun parsed k => rfl, fun k => rfl, ?_⟩
  have hrow : (processFile oracle meta ts device s p).1.successRows =
      s.successRows ++ [SuccessRow.mk p (fileName p) (pathStem p)
        (embPath (pathStem p)) lr.embedding.length lr.sampleRate
        (if lr.sampleRate = 0 then 0
          else (lr.numSamples : ℚ) / (lr.sampleRate : ℚ))
        device ts ((meta (pathStem p)).elim "" MetaItem.continent)
        ((meta (pathStem p)).elim "" MetaItem.country)
        ((meta (pathStem p)).elim "" MetaItem.speaker)
        ((meta (pathStem p)).elim "" MetaItem.audio_url)] := by
    simp only [processFile, if_neg h2, h1]
  exact ⟨_, hrow, by simp [h3], by simp [h3], by simp [h3], by simp [h3]⟩

theorem missing_metadata_defaults_empty_witness :
    (∀ k : String, load_optional_metadata true none k = none)
    ∧ ∃ row : SuccessRow,
        (processFile oracleOk (fun _ => none) "t" "cpu" stateOneWav
            "x.wav").1.successRows = stateOneWav.successRows ++ [row]
        ∧ row.continent = "" ∧ row.country = "" ∧ row.speaker = ""
        ∧ row.audio_url = "" := by
  have h := missing_metadata_defaults_empty oracleOk (fun _ => none) "t" "cpu"
    stateOneWav "x.wav" ⟨0, 0, [(1 : ℚ)]⟩ rfl (by simp [stateOneWav]) rfl
  exact ⟨h.2.1, h.2.2⟩

/-! ## C10: one timestamp per run -/

theorem processFile_rows_timestamp (oracle : String → LoadResult)
    (meta : String → Option MetaItem) (ts device : String)
    (s : PipelineState) (p : String) :
    (∀ r : SuccessRow,
        r ∈ (processFile oracle meta ts device s p).1.successRows →
          r ∈ s.successRows ∨ r.created_utc = ts)
    ∧ (∀ f : FailureRow,
        f ∈ (processFile oracle meta ts device s p).1.failureRows →
          f ∈ s.failureRows ∨ f.created_utc = ts) := by
  by_cases hmem : pathStem p ∈ s.artifacts
  · rw [processFile_skip oracle meta ts device s p hmem]
    exact ⟨fun r hr => Or.inl hr, fun f hf => Or.inl hf⟩
  · cases ho : oracle p with
    | ok r =>
      constructor
      · intro r hr
        simp only [processFile, if_neg hmem, ho] at hr
        rcases List.mem_append.mp hr with hin | hin
        · exact Or.inl hin
        · right
          rcases List.mem_singleton.mp hin with rfl
          rfl
      · intro f hf
        simp only [processFile, if_neg hmem, ho] at hf
        exact Or.inl hf
    | err reason =>
      by_cases hd : isDecodeError reason <;>
        · constructor
          · intro r hr
            simp only [processFile, if_neg hmem, ho, hd] at hr
            exact Or.inl hr
          · intro f hf
            simp only [processFile, if_neg hmem, ho, hd] at hf
            rcases List.mem_append.mp hf with hin | hin
            · exact Or.inl hin
            · right
              rcases List.mem_singleton.mp hin with rfl
              rfl

theorem runAux_rows_timestamp (oracle : String → LoadResult)
    (meta : String → Option MetaItem) (ts device : String) :
    ∀ (files : List String) (s : PipelineState),
      (∀ r : SuccessRow,
          r ∈ (runPipelineAux oracle meta ts device s files).1.successRows →
            r ∈ s.successRows ∨ r.created_utc = ts)
      ∧ (∀ f : FailureRow,
          f ∈ (runPipelineAux oracle meta ts device s files).1.failureRows →
            f ∈ s.failureRows ∨ f.created_utc = ts) := by
  intro files
  induction files with
  | nil => intro s; exact ⟨fun r hr => Or.inl hr, fun f hf => Or.inl hf⟩
  | cons p ps ih =>
    intro s
    constructor
    · intro r hr
      rcases (ih (processFile oracle meta ts device s p).1).1 r hr with hin | hts
      · exact (processFile_rows_timestamp oracle meta ts device s p).1 r hin
      · exact Or.inr hts
    · intro f hf
      rcases (ih (processFile oracle meta ts device s p).1).2 f hf with hin | hts
      · exact (processFile_rows_timestamp oracle meta ts device s p).2 f hin
      · exact Or.inr hts

/-- C10: every ledger row — success or failure — appended during one run of
the pipeline carries the single timestamp computed at run start: any row of
the final state is either a pre-existing row of the initial state or has
`created_utc = ts`. -/
theorem run_rows_single_timestamp (oracle : String → LoadResult)
    (meta : String → Option MetaItem) (ts device : String)
    (s₀ : PipelineState) :
    (∀ r : SuccessRow,
        r ∈ (runPipeline oracle meta ts device s₀).1.successRows →
          r ∈ s₀.successRows ∨ r.created_utc = ts)
    ∧ (∀ f : FailureRow,
        f ∈ (runPipeline oracle meta ts device s₀).1.failureRows →
          f ∈ s₀.failureRows ∨ f.created_utc = ts) :=
  runAux_rows_timestamp oracle meta ts device (discoverWavFiles s₀) s₀

theorem run_rows_single_timestamp_witness :
    rowX ∈ stateOneWav.successRows ∨ rowX.created_utc = "t" :=
  (run_rows_single_timestamp oracleOk (fun _ => none) "t" "cpu" stateOneWav).1
    rowX (by with_unfolding_all decide)

/-! ## C9: same-stem collisions -/

theorem runAux_append (oracle : String → LoadResult)
    (meta : String → Option MetaItem) (ts device : String) :
    ∀ (as bs : List String) (s : PipelineState),
      runPipelineAux oracle meta ts device s (as ++ bs) =
        ((runPipelineAux oracle meta ts device
            (runPipelineAux oracle meta ts device s as).1 bs).1,
          (runPipelineAux oracle meta ts device s as).2 ++
            (runPipelineAux oracle meta ts device
              (runPipelineAux oracle meta ts device s as).1 bs).2) := by
  intro as
  induction as with
  | nil => intro bs s; rfl
  | cons a t ih =>
    intro bs s
    have hstep : runPipelineAux oracle meta ts device s ((a :: t) ++ bs) =
        ((runPipelineAux oracle meta ts device
            (processFile oracle meta ts device s a).1 (t ++ bs)).1,
          (processFile oracle meta ts device s a).2 ++
            (runPipelineAux oracle meta ts device
              (processFile oracle meta ts device s a).1 (t ++ bs)).2) := rfl
    have hstep2 : runPipelineAux oracle meta ts device s (a :: t) =
        ((runPipelineAux oracle meta ts device
            (processFile oracle meta ts device s a).1 t).1,
          (processFile oracle meta ts device s a).2 ++
            (runPipelineAux oracle meta ts device
              (processFile oracle meta ts device s a).1 t).2) := rfl
    rw [hstep, ih, hstep2]
    simp [List.append_assoc]

theorem runAux_write_zero (oracle : String → LoadResult)
    (meta : String → Option MetaItem) (ts device : String) (st : String) :
    ∀ (files : List String) (s : PipelineState), st ∈ s.artifacts →
      ((runPipelineAux oracle meta ts device s files).2.filter
        (fun e => decide (e = Event.writeArtifact st))).length = 0 := by
  intro files
  induction files with
  | nil => intro s _; rfl
  | cons p ps ih =>
    intro s h
    simp only [runPipelineAux, List.filter_append, List.length_append]
    have hB := ih (processFile oracle meta ts device s p).1
      (processFile_artifacts_mono oracle meta ts device s p h)
    rw [hB]
    have hA : List.filter (fun e => decide (e = Event.writeArtifact st))
        (processFile oracle meta ts device s p).2 = [] := by
      by_cases hmem : pathStem p ∈ s.artifacts
      · rw [processFile_skip oracle meta ts device s p hmem]
        simp
      · have hne : pathStem p ≠ st := fun hc => hmem (hc ▸ h)
        cases ho : oracle p with
        | ok r => simp [processFile, hmem, ho, hne]
        | err reason =>
          by_cases hd : isDecodeError reason <;>
            simp [processFile, hmem, ho, hd]
    rw [hA]
    rfl

theorem runAux_write_le_one (oracle : String → LoadResult)
    (meta : String → Option MetaItem) (ts device : String) (st : String) :
    ∀ (files : List String) (s : PipelineState),
      ((runPipelineAux oracle meta ts device s files).2.filter
        (fun e => decide (e = Event.writeArtifact st))).length ≤ 1 := by
  intro files
  induction files with
  | nil => intro s; simp [runPipelineAux]
  | cons p ps ih =>
    intro s
    simp only [runPipelineAux, List.filter_append, List.length_append]
    by_cases hmem : pathStem p ∈ s.artifacts
    · have hA : List.filter (fun e => decide (e = Event.writeArtifact st))
          (processFile oracle meta ts device s p).2 = [] := by
        rw [processFile_skip oracle meta ts device s p hmem]
        simp
      rw [hA]
      simpa using ih (processFile oracle meta ts device s p).1
    · cases ho : oracle p with
      | ok r =>
        by_cases hst : pathStem p = st
        · subst hst
          have hstmem : pathStem p ∈
              (processFile oracle meta ts device s p).1.artifacts := by
            simp only [processFile, if_neg hmem, ho]
            exact List.mem_cons_self _ _
          have hB := runAux_write_zero oracle meta ts device (pathStem p) ps
            (processFile oracle meta ts device s p).1 hstmem
          rw [hB]
          have hA : List.filter
              (fun e => decide (e = Event.writeArtifact (pathStem p)))
              (processFile oracle meta ts device s p).2 =
                [Event.writeArtifact (pathStem p)] := by
            simp [processFile, hmem, ho]
          rw [hA]
          simp
        · have hA : List.filter (fun e => decide (e = Event.writeArtifact st))
              (processFile oracle meta ts device s p).2 = [] := by
            simp [processFile, hmem, ho, hst]
          rw [hA]
          simpa using ih (processFile oracle meta ts device s p).1
      | err reason =>
        have hA : List.filter (fun e => decide (e = Event.writeArtifact st))
            (processFile oracle meta ts device s p).2 = [] := by
          by_cases hd : isDecodeError reason <;>
            simp [processFile, hmem, ho, hd]
        rw [hA]
        simpa using ih (processFile oracle meta ts device s p).1

/-- C9 as amended: per run, at most one artifact write happens for any stem
(conjunct 1); once a file with a given stem has been processed successfully,
the stem's artifact exists (conjunct 2) and persists through the rest of the
run (conjunct 3), so any later file with the same stem — after a succeeding
earlier one — is processed in a state already holding the stem and produces
exactly one skip event: it is counted as skipped, not loaded, and leaves no
ledger row (conjunct 4).  When every earlier same-stem file failed, however,
the later file is processed normally (see the counterexample). -/
theorem same_stem_collision (oracle : String → LoadResult)
    (meta : String → Option MetaItem) (ts device : String)
    (s₀ : PipelineState) (files : List String) :
    (∀ st : String,
        ((runPipelineAux oracle meta ts device s₀ files).2.filter
          (fun e => decide (e = Event.writeArtifact st))).length ≤ 1)
    ∧ (∀ (l₁ : List String) (p : String) (lr : LoadOk), oracle p = .ok lr →
        pathStem p ∈
          (runPipelineAux oracle meta ts device s₀ (l₁ ++ [p])).1.artifacts)
    ∧ (∀ (fs : List String) (s : PipelineState),
        s.artifacts ⊆ (runPipelineAux oracle meta ts device s fs).1.artifacts)
    ∧ (∀ (l₁ : List String) (p : String) (l₂₁ : List String) (q : String)
        (l₂₂ : List String) (lr : LoadOk),
        files = l₁ ++ p :: (l₂₁ ++ q :: l₂₂) → oracle p = .ok lr →
        pathStem q = pathStem p →
        processFile oracle meta ts device
            (runPipelineAux oracle meta ts device s₀ ((l₁ ++ [p]) ++ l₂₁)).1 q =
          ({ (runPipelineAux oracle meta ts device s₀
                ((l₁ ++ [p]) ++ l₂₁)).1 with
              skippedCount := (runPipelineAux oracle meta ts device s₀
                ((l₁ ++ [p]) ++ l₂₁)).1.skippedCount + 1 },
            [Event.skipFile q])) := by
  have hafter : ∀ (l₁ : List String) (p : String) (lr : LoadOk),
      oracle p = .ok lr →
        pathStem p ∈
          (runPipelineAux oracle meta ts device s₀ (l₁ ++ [p])).1.artifacts := by
    intro l₁ p lr ho
    rw [runAux_append oracle meta ts device l₁ [p] s₀]
    by_cases hmem : pathStem p ∈
        (runPipelineAux oracle meta ts device s₀ l₁).1.artifacts
    · exact runAux_artifacts_mono oracle meta ts device [p] _ hmem
    · show pathStem p ∈
        (processFile oracle meta ts device
          (runPipelineAux oracle meta ts device s₀ l₁).1 p).1.artifacts
      simp only [processFile, if_neg hmem, ho]
      exact List.mem_cons_self _ _
  refine ⟨fun st => runAux_write_le_one oracle meta ts device st files s₀,
    hafter, fun fs s => runAux_artifacts_mono oracle meta ts device fs s, ?_⟩
  intro l₁ p l₂₁ q l₂₂ lr _ ho hq
  have h1 := hafter l₁ p lr ho
  have h2 : pathStem q ∈
      (runPipelineAux oracle meta ts device s₀ ((l₁ ++ [p]) ++ l₂₁)).1.artifacts := by
    rw [runAux_append oracle meta ts device (l₁ ++ [p]) l₂₁ s₀, hq]
    exact runAux_artifacts_mono oracle meta ts device l₂₁ _ h1
  exact processFile_skip oracle meta ts device _ q h2

/-- C9 counterexample inputs: two discovered files share the stem `x`; the
one that sorts first fails to load with a non-decode error, the second
succeeds. -/
def oracleFirstFails : String → LoadResult := fun p =>
  if p = "a/x.wav" then .err "boom" else .ok ⟨0, 0, [(1 : ℚ)]⟩

/-- C9 counterexample corpus: two wav files with the same stem in different
directories. -/
def stateTwoSameStem : PipelineState :=
  ⟨[], ["a/x.wav", "b/x.wav"], [], [], [], 0, 0, 0⟩

/-- C9 counterexample: when the first-sorted same-stem file fails, the later
same-stem file is not skipped — it is loaded and processed (the skip counter
stays 0), and the run is not silent (a failure row exists for the first
file).  This refutes the claim that every later same-stem file is counted as
skipped without being loaded. -/
theorem stem_collision_not_always_skipped :
    (runPipeline oracleFirstFails (fun _ => none) "t" "cpu"
        stateTwoSameStem).1.skippedCount = 0
    ∧ Event.loadFile "b/x.wav" ∈
        (runPipeline oracleFirstFails (fun _ => none) "t" "cpu"
          stateTwoSameStem).2
    ∧ (runPipeline oracleFirstFails (fun _ => none) "t" "cpu"
        stateTwoSameStem).1.failureRows ≠ [] := by
  with_unfolding_all decide

theorem same_stem_collision_witness :
    processFile oracleOk (fun _ => none) "t" "cpu"
        (runPipelineAux oracleOk (fun _ => none) "t" "cpu" stateTwoSameStem
          (([] ++ ["a/x.wav"]) ++ [])).1 "b/x.wav" =
      ({ (runPipelineAux oracleOk (fun _ => none) "t" "cpu" stateTwoSameStem
            (([] ++ ["a/x.wav"]) ++ [])).1 with
          skippedCount := (runPipelineAux oracleOk (fun _ => none) "t" "cpu"
            stateTwoSameStem (([] ++ ["a/x.wav"]) ++ [])).1.skippedCount + 1 },
        [Event.skipFile "b/x.wav"]) := by
  have h := (same_stem_collision oracleOk (fun _ => none) "t" "cpu"
    stateTwoSameStem ([] ++ "a/x.wav" :: ([] ++ "b/x.wav" :: []))).2.2.2
  exact h [] "a/x.wav" [] "b/x.wav" [] ⟨0, 0, [(1 : ℚ)]⟩ rfl rfl
    (by with_unfolding_all rfl)

end Dialects
